import Mathlib

/-!
Verification of the CSV merge utility (`merge_csv_files.py`) of the
sa-crime-stats-2024 repository.

The script reads every input CSV with all columns as strings, validates
that the required columns are present, restricts to those columns,
coerces the 'Offence count' column to integers, concatenates all files,
removes exact duplicate rows, aggregates logical duplicates (rows equal
on the six descriptive columns) by summing 'Offence count', sorts by
('Reported Date', 'Suburb - Incident') and writes the result.

The embedding below follows `merge_csv_files.py` line by line; pandas
operations are modelled by their documented behaviour on the shapes of
data this script feeds them.
-/

namespace CrimeMerge

/-- The six descriptive fields of an incident record, the grouping key of
lines 146-153 of `merge_csv_files.py`. All are read as strings
(`pd.read_csv(file, dtype=str)`, line 108). -/
structure Key where
  reported_date : String
  suburb : String
  postcode : String
  offence_level_1 : String
  offence_level_2 : String
  offence_level_3 : String
deriving DecidableEq

/-- A raw input row, restricted to the required columns (line 112): the six
key fields plus the 'Offence count' cell, all still text. -/
structure RawRow extends Key where
  offence_count : String
deriving DecidableEq

/-- A processed row: the count has been coerced to an integer
(line 115, `.astype(int)`). -/
structure Row extends Key where
  offence_count : Int
deriving DecidableEq

/-- The required schema, lines 24-32. -/
def REQUIRED_COLUMNS : List String :=
  ["Reported Date",
   "Suburb - Incident",
   "Postcode - Incident",
   "Offence Level 1 Description",
   "Offence Level 2 Description",
   "Offence Level 3 Description",
   "Offence count"]

/-- One input CSV file as `pd.read_csv` delivers it: either a completely
empty file (pandas raises `EmptyDataError`) or a parsed table with a header
(its column names) and data rows. Rows are carried already restricted to
the required fields; a file whose header lacks a required column is
rejected before its rows are ever used, so this restriction loses
nothing. -/
inductive Source where
  | empty : Source
  | table (cols : List String) (rows : List RawRow) : Source
deriving DecidableEq

/-- Accumulate decimal digits left to right; fails on a non-digit
character. -/
def digitsToNat (acc : Nat) : List Char → Option Nat
  | [] => some acc
  | c :: cs => if c.isDigit then digitsToNat (10 * acc + (c.toNat - 48)) cs else none

/-- Models `pd.to_numeric(..., errors='coerce')` (line 115) on
integer-shaped text: an optional leading minus sign followed by decimal
digits parses to that integer; anything else (including the empty string)
fails and yields NaN, i.e. `none` here. The library also accepts
floating-point and whitespace-padded forms, which the data this script
handles does not use. -/
def parseSigned : List Char → Option Int
  | [] => none
  | ['-'] => none
  | '-' :: cs => (digitsToNat 0 cs).map (fun n => -(Int.ofNat n))
  | cs => (digitsToNat 0 cs).map (fun n => Int.ofNat n)

/-- The numeral is parsed from the cell's character sequence. -/
def to_numeric (s : String) : Option Int := parseSigned s.data

/-- Line 115: `pd.to_numeric(df['Offence count'], errors='coerce').fillna(0).astype(int)`.
A cell that fails to parse becomes 0; the row is kept either way. -/
def coerceRow (r : RawRow) : Row :=
  ⟨r.toKey, (to_numeric r.offence_count).getD 0⟩

/-- Lines 87-90: every required column must appear in the file's header. -/
def validate_columns (cols : List String) : Bool :=
  REQUIRED_COLUMNS.all (fun c => cols.contains c)

/-- Lines 104-129, the per-file loop. A completely empty file raises
`EmptyDataError` and is skipped (line 123). A file with a missing required
column reaches `sys.exit(1)` in `validate_columns` (line 90) — `SystemExit`
derives from `BaseException`, not `Exception`, so none of the `except`
clauses catch it and the whole run aborts, modelled as `none`. Otherwise
the file's rows, with counts coerced, are appended to the working list. -/
def processSources : List Source → Option (List (List Row))
  | [] => some []
  | Source.empty :: rest => processSources rest
  | Source.table cols rows :: rest =>
    if validate_columns cols then
      (processSources rest).map (fun dfs => rows.map coerceRow :: dfs)
    else none

/-- What one file contributes to the working list: `none` when the file
is skipped as completely empty, or when it is invalid (that case aborts
the run, so this map is only meaningful when no file is invalid). Used to
relate `processSources` to the order-insensitive `List.filterMap`. -/
def fileRows : Source → Option (List Row)
  | Source.empty => none
  | Source.table cols rows =>
    if validate_columns cols then some (rows.map coerceRow) else none

/-- Keep the first occurrence of each element, dropping later repeats:
the effect of `DataFrame.drop_duplicates()` (line 143). The `seen`
accumulator holds the elements already emitted. -/
def dropDupsFrom [DecidableEq α] (seen : List α) : List α → List α
  | [] => []
  | a :: l => if a ∈ seen then dropDupsFrom seen l else a :: dropDupsFrom (a :: seen) l

/-- `DataFrame.drop_duplicates()` (line 143): first occurrences survive, in
order. Lines 140-143 only invoke it when a duplicate exists, but on a
duplicate-free table it is the identity, so applying it unconditionally is
the same function. -/
def drop_duplicates [DecidableEq α] (l : List α) : List α := dropDupsFrom [] l

/-- The grouping key of a processed row (lines 146-153). -/
def Row.key (r : Row) : Key := r.toKey

/-- The six key fields as code-point sequences, listed in grouping order,
for lexicographic comparison. Python (and hence pandas) compares strings
lexicographically by Unicode code point, which is exactly the
lexicographic order on the lists of characters. -/
def Key.fields (k : Key) : List (List Char) :=
  [k.reported_date.data, k.suburb.data, k.postcode.data,
   k.offence_level_1.data, k.offence_level_2.data, k.offence_level_3.data]

/-- Ascending lexicographic order on the full six-field key: the order in
which `groupby(..., sort=True)` (the default, line 161) emits its groups. -/
def keyLE (a b : Key) : Prop := a.fields ≤ b.fields

/-- The (Reported Date, Suburb - Incident) sort key of line 164, again as
code-point sequences. -/
def dsKey (r : Row) : List (List Char) := [r.reported_date.data, r.suburb.data]

/-- Ascending lexicographic order on (Reported Date, Suburb - Incident):
the order of `sort_values(by=["Reported Date", "Suburb - Incident"])`
(line 164). With more than one by-column pandas sorts via `numpy.lexsort`,
which is a stable sort. -/
def dsLE (a b : Row) : Prop := dsKey a ≤ dsKey b

instance : DecidableRel keyLE :=
  fun a b => inferInstanceAs (Decidable (a.fields ≤ b.fields))

instance : DecidableRel dsLE :=
  fun a b => inferInstanceAs (Decidable (dsKey a ≤ dsKey b))

instance : IsTotal Key keyLE := ⟨fun a b => le_total a.fields b.fields⟩

instance : IsTrans Key keyLE := ⟨fun _ _ _ h1 h2 => le_trans h1 h2⟩

instance : IsTotal Row dsLE := ⟨fun a b => le_total (dsKey a) (dsKey b)⟩

instance : IsTrans Row dsLE := ⟨fun _ _ _ h1 h2 => le_trans h1 h2⟩

instance : IsAntisymm Key keyLE :=
  ⟨fun a b h1 h2 => by
    have h3 : a.fields = b.fields := le_antisymm h1 h2
    cases a
    cases b
    simp only [Key.fields, List.cons.injEq, and_true] at h3
    obtain ⟨e1, e2, e3, e4, e5, e6⟩ := h3
    simp [String.ext e1, String.ext e2, String.ext e3,
      String.ext e4, String.ext e5, String.ext e6]⟩

/-- Lines 156-158: `duplicated(subset=grouping_columns, keep=False).sum() > 0`
holds exactly when some row's six-field key occurs at least twice. -/
def hasLogicalDups (l : List Row) : Bool :=
  l.any (fun r => 2 ≤ l.countP (fun r2 => decide (r2.key = r.key)))

/-- Total 'Offence count' of the rows whose key is `k`. -/
def groupSum (l : List Row) (k : Key) : Int :=
  ((l.filter (fun r => decide (r.key = k))).map Row.offence_count).sum

/-- Line 161: `groupby(grouping_columns, as_index=False)["Offence count"].sum()`.
One output row per distinct key, in ascending key order (groupby sorts its
groups by default), carrying the summed count. -/
def groupby_sum (l : List Row) : List Row :=
  ((drop_duplicates (l.map Row.key)).insertionSort keyLE).map
    (fun k => ⟨k, groupSum l k⟩)

/-- Line 164: stable ascending sort by (Reported Date, Suburb - Incident). -/
def sort_values (l : List Row) : List Row := l.insertionSort dsLE

/-- The two `sys.exit(1)` outcomes reachable inside `merge_csv_files` once
the files exist: a file with a missing required column (line 90), and
nothing at all to merge (line 133). -/
inductive MergeError where
  | columnMissing : MergeError
  | noData : MergeError
deriving DecidableEq

/-- Lines 137-164: the deduplication stage run on the concatenated table.
Exact duplicates are dropped (lines 139-143); logical duplicates are
aggregated only when some exist — otherwise the table passes through this
step untouched (lines 155-161); finally the table is sorted (line 164). -/
def mergePipeline (merged : List Row) : List Row :=
  sort_values
    (if hasLogicalDups (drop_duplicates merged) then groupby_sum (drop_duplicates merged)
     else drop_duplicates merged)

/-- Lines 104-168 of `merge_csv_files.py`: process every file; if no file
produced a table, exit with the no-data error; otherwise concatenate
(`pd.concat`, line 137) and run the deduplication stage. The returned
table is what `to_csv` writes. -/
def merge_csv_files (sources : List Source) : Except MergeError (List Row) :=
  match processSources sources with
  | none => Except.error MergeError.columnMissing
  | some dfs =>
    if dfs.isEmpty then Except.error MergeError.noData
    else Except.ok (mergePipeline dfs.flatten)

/-- The working collection: the concatenation of all coerced per-file
tables (the `pd.concat` of line 137). -/
def workingRows (sources : List Source) : Option (List Row) :=
  (processSources sources).map List.flatten

/-- Sum of 'Offence count' over a list of rows. -/
def sumCounts (l : List Row) : Int := (l.map Row.offence_count).sum

/-- Spec-side definition, following the specification's words for the
conservation property: the total of the coerced 'Offence count' values
over every input row of every source that passes field validation. Kept
separate from the implementation so the two can be compared. -/
def specValidatedInputSum (sources : List Source) : Int :=
  (sources.map (fun s =>
    match s with
    | Source.empty => 0
    | Source.table cols rows =>
      if validate_columns cols then sumCounts (rows.map coerceRow) else 0)).sum

/-- A parsed file whose header lacks some required column. -/
def missingRequired : Source → Bool
  | Source.empty => false
  | Source.table cols _ => ! validate_columns cols

/-- Decimal digits of `n`, most significant first — the numeral `to_csv`
writes for a non-negative int64 value. -/
def natDigits (n : Nat) : List Char :=
  if _h : n < 10 then [Char.ofNat (48 + n)]
  else natDigits (n / 10) ++ [Char.ofNat (48 + n % 10)]
decreasing_by exact Nat.div_lt_self (by omega) (by omega)

/-- Decimal rendering of an integer count, as `to_csv` writes an int64
column value. -/
def intToString (n : Int) : String :=
  if n < 0 then ⟨'-' :: natDigits n.natAbs⟩ else ⟨natDigits n.natAbs⟩

/-- Re-reading a Canonical Table row from the written CSV: the six key
fields round-trip unchanged as strings; the count cell holds the decimal
rendering of the integer count. -/
def rawOfRow (r : Row) : RawRow := ⟨r.toKey, intToString r.offence_count⟩

/-- Concrete key used to exercise the pipeline on closed inputs. -/
def exKeyA : Key :=
  ⟨"2024-01-01", "ADELAIDE", "5000", "THEFT", "Shop theft", "Shop theft"⟩

/-- A second concrete key with a later date. -/
def exKeyB : Key :=
  ⟨"2024-01-02", "BURNSIDE", "5066", "ASSAULT", "Common assault", "Common assault"⟩

/-- A raw row over `exKeyA` with the given count cell. -/
def exRawA (c : String) : RawRow := ⟨exKeyA, c⟩

/-- A raw row over `exKeyB` with the given count cell. -/
def exRawB (c : String) : RawRow := ⟨exKeyB, c⟩

/-- A well-formed source holding the given rows. -/
def exTable (rows : List RawRow) : Source := Source.table REQUIRED_COLUMNS rows

/-- A source whose header lacks most required columns. -/
def exBadSource : Source := Source.table ["Reported Date"] []

theorem mem_dropDupsFrom [DecidableEq α] (seen : List α) (l : List α) (a : α) :
    a ∈ dropDupsFrom seen l ↔ a ∈ l ∧ a ∉ seen := by
  induction l generalizing seen with
  | nil => simp [dropDupsFrom]
  | cons b l ih =>
    by_cases hb : b ∈ seen
    · rw [dropDupsFrom, if_pos hb, ih, List.mem_cons]
      constructor
      · exact fun ⟨h1, h2⟩ => ⟨Or.inr h1, h2⟩
      · rintro ⟨rfl | h1, h2⟩
        · exact absurd hb h2
        · exact ⟨h1, h2⟩
    · rw [dropDupsFrom, if_neg hb, List.mem_cons, List.mem_cons, ih]
      constructor
      · rintro (rfl | ⟨h1, h2⟩)
        · exact ⟨Or.inl rfl, hb⟩
        · exact ⟨Or.inr h1, fun hs => h2 (List.mem_cons_of_mem _ hs)⟩
      · rintro ⟨rfl | h1, h2⟩
        · exact Or.inl rfl
        · by_cases hab : a = b
          · exact Or.inl hab
          · exact Or.inr ⟨h1, by simp [List.mem_cons, hab, h2]⟩

theorem nodup_dropDupsFrom [DecidableEq α] (seen : List α) (l : List α) :
    (dropDupsFrom seen l).Nodup := by
  induction l generalizing seen with
  | nil => exact List.nodup_nil
  | cons b l ih =>
    by_cases hb : b ∈ seen
    · rw [dropDupsFrom, if_pos hb]; exact ih seen
    · rw [dropDupsFrom, if_neg hb, List.nodup_cons]
      refine ⟨fun hmem => ?_, ih _⟩
      rw [mem_dropDupsFrom] at hmem
      exact hmem.2 (List.mem_cons_self b seen)

theorem dropDupsFrom_eq_self [DecidableEq α] (seen : List α) (l : List α)
    (hl : l.Nodup) (hs : ∀ a ∈ l, a ∉ seen) : dropDupsFrom seen l = l := by
  induction l generalizing seen with
  | nil => rfl
  | cons b l ih =>
    rw [List.nodup_cons] at hl
    rw [dropDupsFrom, if_neg (hs b (List.mem_cons_self b l))]
    congr 1
    refine ih _ hl.2 (fun a ha => ?_)
    rw [List.mem_cons]
    rintro (rfl | hseen)
    · exact hl.1 ha
    · exact hs a (List.mem_cons_of_mem _ ha) hseen

theorem mem_drop_duplicates [DecidableEq α] (l : List α) (a : α) :
    a ∈ drop_duplicates l ↔ a ∈ l := by
  rw [drop_duplicates, mem_dropDupsFrom]
  simp

theorem nodup_drop_duplicates [DecidableEq α] (l : List α) :
    (drop_duplicates l).Nodup := nodup_dropDupsFrom [] l

theorem drop_duplicates_eq_self [DecidableEq α] {l : List α} (hl : l.Nodup) :
    drop_duplicates l = l :=
  dropDupsFrom_eq_self [] l hl (fun a _ h => (List.not_mem_nil a) h)

theorem drop_duplicates_perm_congr [DecidableEq α] {l₁ l₂ : List α}
    (h : ∀ a, a ∈ l₁ ↔ a ∈ l₂) : List.Perm (drop_duplicates l₁) (drop_duplicates l₂) := by
  rw [List.perm_ext_iff_of_nodup (nodup_drop_duplicates l₁) (nodup_drop_duplicates l₂)]
  intro a
  rw [mem_drop_duplicates, mem_drop_duplicates]
  exact h a

theorem sumCounts_perm {l₁ l₂ : List Row} (h : List.Perm l₁ l₂) :
    sumCounts l₁ = sumCounts l₂ := (h.map Row.offence_count).sum_eq

theorem sumCounts_filter_split (l : List Row) (p : Row → Bool) :
    sumCounts l = sumCounts (l.filter p) + sumCounts (l.filter (fun r => ! p r)) := by
  induction l with
  | nil => simp [sumCounts]
  | cons a l ih =>
    by_cases h : p a <;> simp [sumCounts, List.filter_cons, h] at ih ⊢ <;> omega

theorem groupSum_filter_ne (l : List Row) (k k' : Key) (hne : k' ≠ k) :
    groupSum (l.filter (fun r => ! decide (r.key = k))) k' = groupSum l k' := by
  unfold groupSum
  rw [List.filter_filter]
  have hfe : List.filter (fun a => decide (a.key = k') && ! decide (a.key = k)) l
      = List.filter (fun r => decide (r.key = k')) l := by
    apply List.filter_congr
    intro r _
    by_cases h : r.key = k'
    · simp [h, hne]
    · simp [h]
  rw [hfe]

theorem sum_over_keys (ks : List Key) :
    ∀ l : List Row, ks.Nodup → (∀ r ∈ l, r.key ∈ ks) →
      (ks.map (groupSum l)).sum = sumCounts l := by
  induction ks with
  | nil =>
    intro l _ hcov
    have hnil : l = [] := by
      apply List.eq_nil_iff_forall_not_mem.mpr
      intro r hr
      simpa using hcov r hr
    rw [hnil]
    rfl
  | cons k ks ih =>
    intro l hnd hcov
    rw [List.nodup_cons] at hnd
    have hih := ih (l.filter (fun r => ! decide (r.key = k))) hnd.2 ?_
    · rw [List.map_cons, List.sum_cons]
      have hmapeq : ks.map (groupSum l) =
          ks.map (groupSum (l.filter (fun r => ! decide (r.key = k)))) := by
        apply List.map_congr_left
        intro k' hk'
        exact (groupSum_filter_ne l k k' (fun he => hnd.1 (he ▸ hk'))).symm
      rw [hmapeq, hih, sumCounts_filter_split l (fun r => decide (r.key = k))]
      rfl
    · intro r hr
      rw [List.mem_filter] at hr
      have := hcov r hr.1
      rw [List.mem_cons] at this
      rcases this with he | hm
      · exact absurd (by simpa using hr.2) (by simp [he])
      · exact hm

theorem sumCounts_groupby_sum (l : List Row) :
    sumCounts (groupby_sum l) = sumCounts l := by
  unfold groupby_sum sumCounts
  rw [List.map_map]
  have h1 : (Row.offence_count ∘ fun k => (⟨k, groupSum l k⟩ : Row)) = groupSum l := rfl
  rw [h1]
  apply sum_over_keys
  · exact ((List.perm_insertionSort keyLE _).nodup_iff).mpr (nodup_drop_duplicates _)
  · intro r hr
    rw [List.mem_insertionSort, mem_drop_duplicates]
    exact List.mem_map_of_mem Row.key hr

theorem countP_key_eq_count (l : List Row) (k : Key) :
    l.countP (fun r => decide (r.key = k)) = (l.map Row.key).count k := by
  rw [List.count, List.countP_map]
  rfl

theorem hasLogicalDups_eq_false_iff (l : List Row) :
    hasLogicalDups l = false ↔ (l.map Row.key).Nodup := by
  unfold hasLogicalDups
  constructor
  · intro h
    rw [List.nodup_iff_count_le_one]
    intro k
    by_contra hgt
    have h2 : 2 ≤ (l.map Row.key).count k := by omega
    have hkmem : k ∈ l.map Row.key := by
      rw [← List.count_pos_iff]
      omega
    rw [List.mem_map] at hkmem
    obtain ⟨r, hr, hrk⟩ := hkmem
    have : l.any (fun r => 2 ≤ l.countP (fun r2 => decide (r2.key = r.key))) = true := by
      rw [List.any_eq_true]
      refine ⟨r, hr, ?_⟩
      rw [decide_eq_true_eq, countP_key_eq_count, hrk]
      exact h2
    rw [h] at this
    cases this
  · intro h
    rw [List.any_eq_false]
    intro r hr
    rw [decide_eq_true_eq, countP_key_eq_count]
    rw [List.nodup_iff_count_le_one] at h
    have := h r.key
    omega

theorem hasLogicalDups_perm {l₁ l₂ : List Row} (h : List.Perm l₁ l₂) :
    hasLogicalDups l₁ = hasLogicalDups l₂ := by
  have hiff : hasLogicalDups l₁ = false ↔ hasLogicalDups l₂ = false := by
    rw [hasLogicalDups_eq_false_iff, hasLogicalDups_eq_false_iff]
    exact (h.map Row.key).nodup_iff
  cases h1 : hasLogicalDups l₁ <;> cases h2 : hasLogicalDups l₂ <;> simp_all

theorem processSources_eq_filterMap {sources : List Source}
    (h : ∀ s ∈ sources, missingRequired s = false) :
    processSources sources = some (sources.filterMap fileRows) := by
  induction sources with
  | nil => rfl
  | cons s rest ih =>
    have hrest := ih (fun t ht => h t (List.mem_cons_of_mem _ ht))
    cases s with
    | empty => rw [List.filterMap_cons]; exact hrest
    | table cols rows =>
      have hv : validate_columns cols = true := by
        have := h _ (List.mem_cons_self _ _)
        simpa [missingRequired] using this
      rw [List.filterMap_cons]
      simp only [processSources, fileRows, hv, ite_true, hrest]
      rfl

theorem exists_cons_of_head_false {α : Type} {p : α → Bool} {s : α} {rest : List α}
    (hs : p s = false) : (∃ t ∈ rest, p t = true) ↔ (∃ t ∈ s :: rest, p t = true) := by
  constructor
  · rintro ⟨t, ht, hm⟩
    exact ⟨t, List.mem_cons_of_mem _ ht, hm⟩
  · rintro ⟨t, ht, hm⟩
    rcases List.mem_cons.mp ht with rfl | ht'
    · rw [hs] at hm
      cases hm
    · exact ⟨t, ht', hm⟩

theorem processSources_eq_none_iff (sources : List Source) :
    processSources sources = none ↔ ∃ s ∈ sources, missingRequired s = true := by
  induction sources with
  | nil => simp [processSources]
  | cons s rest ih =>
    cases s with
    | empty =>
      rw [show processSources (Source.empty :: rest) = processSources rest from rfl, ih]
      exact exists_cons_of_head_false rfl
    | table cols rows =>
      by_cases hv : validate_columns cols
      · rw [show processSources (Source.table cols rows :: rest)
            = (processSources rest).map (fun dfs => rows.map coerceRow :: dfs) from by
              simp [processSources, hv]]
        rw [Option.map_eq_none', ih]
        exact exists_cons_of_head_false (by simp [missingRequired, hv])
      · rw [show processSources (Source.table cols rows :: rest) = none from by
              simp [processSources, hv]]
        constructor
        · intro _
          exact ⟨Source.table cols rows, List.mem_cons_self _ _, by simp [missingRequired, hv]⟩
        · intro _
          rfl

theorem processSources_eq_some_nil_iff (sources : List Source) :
    processSources sources = some [] ↔ ∀ s ∈ sources, s = Source.empty := by
  induction sources with
  | nil => simp [processSources]
  | cons s rest ih =>
    cases s with
    | empty =>
      rw [show processSources (Source.empty :: rest) = processSources rest from rfl, ih]
      simp [List.forall_mem_cons]
    | table cols rows =>
      by_cases hv : validate_columns cols
      · rw [show processSources (Source.table cols rows :: rest)
            = (processSources rest).map (fun dfs => rows.map coerceRow :: dfs) from by
              simp [processSources, hv]]
        simp [Option.map_eq_some', List.forall_mem_cons]
      · rw [show processSources (Source.table cols rows :: rest) = none from by
              simp [processSources, hv]]
        simp [List.forall_mem_cons]

theorem merge_csv_files_eq_of_none {sources : List Source}
    (h : processSources sources = none) :
    merge_csv_files sources = Except.error MergeError.columnMissing := by
  unfold merge_csv_files
  rw [h]

theorem merge_csv_files_eq_of_some {sources : List Source} {dfs : List (List Row)}
    (h : processSources sources = some dfs) :
    merge_csv_files sources =
      if dfs.isEmpty then Except.error MergeError.noData
      else Except.ok (mergePipeline dfs.flatten) := by
  unfold merge_csv_files
  rw [h]

theorem merge_ok_iff (sources : List Source) (out : List Row) :
    merge_csv_files sources = Except.ok out ↔
      ∃ dfs, processSources sources = some dfs ∧ dfs ≠ [] ∧
        out = mergePipeline dfs.flatten := by
  cases hps : processSources sources with
  | none =>
    rw [merge_csv_files_eq_of_none hps]
    simp
  | some dfs =>
    rw [merge_csv_files_eq_of_some hps]
    by_cases hd : dfs = []
    · subst hd
      simp
    · rw [if_neg (by simpa [List.isEmpty_iff] using hd)]
      constructor
      · intro hok
        cases hok
        exact ⟨dfs, rfl, hd, rfl⟩
      · rintro ⟨dfs', hdfs', _, rfl⟩
        cases hdfs'
        rfl

theorem groupSum_perm {l₁ l₂ : List Row} (h : List.Perm l₁ l₂) (k : Key) :
    groupSum l₁ k = groupSum l₂ k :=
  ((h.filter _).map Row.offence_count).sum_eq

theorem groupby_sum_congr {l₁ l₂ : List Row} (h : List.Perm l₁ l₂) :
    groupby_sum l₁ = groupby_sum l₂ := by
  unfold groupby_sum
  have hkeys : ((drop_duplicates (l₁.map Row.key)).insertionSort keyLE)
      = ((drop_duplicates (l₂.map Row.key)).insertionSort keyLE) := by
    refine List.eq_of_perm_of_sorted ?_
      (List.sorted_insertionSort keyLE _) (List.sorted_insertionSort keyLE _)
    exact (List.perm_insertionSort keyLE _).trans
      ((drop_duplicates_perm_congr (fun a => (h.map Row.key).mem_iff)).trans
        (List.perm_insertionSort keyLE _).symm)
  rw [hkeys]
  apply List.map_congr_left
  intro k _
  rw [groupSum_perm h]

theorem mergePipeline_sorted (l : List Row) : List.Sorted dsLE (mergePipeline l) :=
  List.sorted_insertionSort dsLE _

theorem keys_nodup_groupby (l : List Row) : ((groupby_sum l).map Row.key).Nodup := by
  unfold groupby_sum
  rw [List.map_map]
  have h1 : (Row.key ∘ fun k => (⟨k, groupSum l k⟩ : Row)) = id := rfl
  rw [h1, List.map_id]
  exact ((List.perm_insertionSort keyLE _).nodup_iff).mpr (nodup_drop_duplicates _)

theorem mergePipeline_keys_nodup (l : List Row) :
    ((mergePipeline l).map Row.key).Nodup := by
  unfold mergePipeline sort_values
  have hperm := List.perm_insertionSort dsLE
    (if hasLogicalDups (drop_duplicates l) then groupby_sum (drop_duplicates l)
     else drop_duplicates l)
  refine ((hperm.map Row.key).nodup_iff).mpr ?_
  by_cases h : hasLogicalDups (drop_duplicates l)
  · rw [if_pos h]
    exact keys_nodup_groupby _
  · rw [if_neg h]
    exact (hasLogicalDups_eq_false_iff _).mp (Bool.not_eq_true _ ▸ h)

theorem mergePipeline_sumCounts (l : List Row) :
    sumCounts (mergePipeline l) = sumCounts (drop_duplicates l) := by
  unfold mergePipeline sort_values
  rw [sumCounts_perm (List.perm_insertionSort dsLE _)]
  by_cases h : hasLogicalDups (drop_duplicates l)
  · rw [if_pos h, sumCounts_groupby_sum]
  · rw [if_neg h]

theorem mergePipeline_perm_congr {l₁ l₂ : List Row}
    (hmem : ∀ a, a ∈ l₁ ↔ a ∈ l₂) :
    List.Perm (mergePipeline l₁) (mergePipeline l₂) := by
  have hdd : List.Perm (drop_duplicates l₁) (drop_duplicates l₂) :=
    drop_duplicates_perm_congr hmem
  have hld : hasLogicalDups (drop_duplicates l₁) = hasLogicalDups (drop_duplicates l₂) :=
    hasLogicalDups_perm hdd
  unfold mergePipeline sort_values
  by_cases h : hasLogicalDups (drop_duplicates l₁)
  · rw [if_pos h, if_pos (hld ▸ h), groupby_sum_congr hdd]
  · rw [if_neg h, if_neg (hld ▸ h)]
    exact (List.perm_insertionSort dsLE _).trans
      (hdd.trans (List.perm_insertionSort dsLE _).symm)

theorem mergePipeline_eq_self {l : List Row}
    (hnd : (l.map Row.key).Nodup) (hs : List.Sorted dsLE l) : mergePipeline l = l := by
  have hrow : l.Nodup := hnd.of_map
  have hdd : drop_duplicates l = l := drop_duplicates_eq_self hrow
  unfold mergePipeline sort_values
  rw [hdd, if_neg ?hld, hs.insertionSort_eq]
  case hld =>
    rw [(hasLogicalDups_eq_false_iff l).mpr hnd]
    exact Bool.false_ne_true

theorem char_digit_facts {d : Nat} (hd : d < 10) :
    (Char.ofNat (48 + d)).isDigit = true ∧ (Char.ofNat (48 + d)).toNat = 48 + d := by
  interval_cases d <;> exact ⟨by decide, by decide⟩

theorem digitsToNat_append {d : Nat} (hd : d < 10) (cs : List Char) (acc : Nat) :
    digitsToNat acc (cs ++ [Char.ofNat (48 + d)]) =
      (digitsToNat acc cs).map (fun n => 10 * n + d) := by
  induction cs generalizing acc with
  | nil =>
    obtain ⟨h1, h2⟩ := char_digit_facts hd
    simp [digitsToNat, h1, h2]
  | cons c cs ih =>
    by_cases hc : c.isDigit <;> simp [digitsToNat, hc, ih]

theorem digitsToNat_natDigits (n : Nat) :
    ∀ acc, digitsToNat acc (natDigits n) = some (acc * 10 ^ (natDigits n).length + n) := by
  induction n using Nat.strong_induction_on with
  | _ n ih =>
    intro acc
    by_cases h : n < 10
    · rw [natDigits, dif_pos h]
      obtain ⟨h1, h2⟩ := char_digit_facts h
      simp [digitsToNat, h1, h2]
      omega
    · rw [natDigits, dif_neg h]
      rw [digitsToNat_append (Nat.mod_lt n (by omega))]
      rw [ih (n / 10) (Nat.div_lt_self (by omega) (by omega)) acc]
      rw [Option.map_some']
      rw [show ((natDigits (n / 10)) ++ [Char.ofNat (48 + n % 10)]).length
          = (natDigits (n / 10)).length + 1 from by simp]
      congr 1
      have hdm := Nat.div_add_mod n 10
      rw [pow_succ]
      calc 10 * (acc * 10 ^ (natDigits (n / 10)).length + n / 10) + n % 10
          = acc * (10 ^ (natDigits (n / 10)).length * 10) + (10 * (n / 10) + n % 10) := by
            ring
        _ = acc * (10 ^ (natDigits (n / 10)).length * 10) + n := by rw [hdm]

theorem natDigits_ne_nil (n : Nat) : natDigits n ≠ [] := by
  rw [natDigits]
  by_cases h : n < 10
  · rw [dif_pos h]
    simp
  · rw [dif_neg h]
    simp

theorem natDigits_all_digits (n : Nat) : ∀ c ∈ natDigits n, c.isDigit = true := by
  induction n using Nat.strong_induction_on with
  | _ n ih =>
    rw [natDigits]
    by_cases h : n < 10
    · rw [dif_pos h]
      intro c hc
      rw [List.mem_singleton] at hc
      subst hc
      exact (char_digit_facts h).1
    · rw [dif_neg h]
      intro c hc
      rcases List.mem_append.mp hc with h1 | h2
      · exact ih (n / 10) (Nat.div_lt_self (by omega) (by omega)) c h1
      · rw [List.mem_singleton] at h2
        subst h2
        exact (char_digit_facts (Nat.mod_lt n (by omega))).1

theorem parseSigned_digits {ds : List Char} (hne : ds ≠ [])
    (hdig : ∀ c ∈ ds, c.isDigit = true) :
    parseSigned ds = (digitsToNat 0 ds).map (fun m => Int.ofNat m) := by
  cases ds with
  | nil => exact absurd rfl hne
  | cons c cs =>
    have hc : c.isDigit = true := hdig c (List.mem_cons_self c cs)
    have hcne : c ≠ '-' := by
      intro he
      rw [he] at hc
      exact absurd hc (by decide)
    unfold parseSigned
    split
    · rename_i heq
      cases heq
    · rename_i heq
      injection heq with h1 h2
      exact absurd h1 hcne
    · rename_i heq
      injection heq with h1 h2
      exact absurd h1 hcne
    · rfl

theorem to_numeric_intToString (n : Int) : to_numeric (intToString n) = some n := by
  by_cases hn : n < 0
  · rw [intToString, if_pos hn]
    show parseSigned ('-' :: natDigits n.natAbs) = some n
    have hne := natDigits_ne_nil n.natAbs
    have hval := digitsToNat_natDigits n.natAbs 0
    cases hds : natDigits n.natAbs with
    | nil => exact absurd hds hne
    | cons c cs =>
      rw [hds] at hval
      show (digitsToNat 0 (c :: cs)).map (fun m => -(Int.ofNat m)) = some n
      rw [hval, Option.map_some']
      simp only [Nat.zero_mul, Nat.zero_add, Int.ofNat_eq_coe]
      congr 1
      omega
  · rw [intToString, if_neg hn]
    show parseSigned (natDigits n.natAbs) = some n
    rw [parseSigned_digits (natDigits_ne_nil n.natAbs) (natDigits_all_digits n.natAbs)]
    rw [digitsToNat_natDigits n.natAbs 0, Option.map_some']
    simp only [Nat.zero_mul, Nat.zero_add, Int.ofNat_eq_coe]
    congr 1
    omega

theorem coerceRow_rawOfRow (r : Row) : coerceRow (rawOfRow r) = r := by
  unfold coerceRow rawOfRow
  rw [show to_numeric ⟨intToString r.offence_count |>.data⟩
      = to_numeric (intToString r.offence_count) from rfl]
  rw [to_numeric_intToString]
  rfl

theorem filter_orderedInsert_key_eq (x : Row) (k : List (List Char)) (hx : dsKey x = k) :
    ∀ l : List Row,
      (l.orderedInsert dsLE x).filter (fun r => decide (dsKey r = k)) =
        x :: l.filter (fun r => decide (dsKey r = k)) := by
  intro l
  induction l with
  | nil => simp [List.orderedInsert, hx]
  | cons y l ih =>
    rw [List.orderedInsert]
    by_cases h : dsLE x y
    · rw [if_pos h]
      simp [List.filter_cons, hx]
    · rw [if_neg h]
      have hy : dsKey y ≠ k := by
        intro he
        apply h
        show dsKey x ≤ dsKey y
        rw [he, hx]
      simp [List.filter_cons, hy, ih]

theorem filter_orderedInsert_key_ne (x : Row) (k : List (List Char)) (hx : dsKey x ≠ k) :
    ∀ l : List Row,
      (l.orderedInsert dsLE x).filter (fun r => decide (dsKey r = k)) =
        l.filter (fun r => decide (dsKey r = k)) := by
  intro l
  induction l with
  | nil => simp [List.orderedInsert, hx]
  | cons y l ih =>
    rw [List.orderedInsert]
    by_cases h : dsLE x y
    · rw [if_pos h]
      simp [List.filter_cons, hx]
    · rw [if_neg h]
      simp [List.filter_cons, ih]

theorem sort_values_stable (l : List Row) (k : List (List Char)) :
    (sort_values l).filter (fun r => decide (dsKey r = k)) =
      l.filter (fun r => decide (dsKey r = k)) := by
  induction l with
  | nil => rfl
  | cons x l ih =>
    rw [sort_values, List.insertionSort]
    rw [sort_values] at ih
    by_cases hx : dsKey x = k
    · rw [filter_orderedInsert_key_eq x k hx, ih, List.filter_cons]
      simp [hx]
    · rw [filter_orderedInsert_key_ne x k hx, ih, List.filter_cons]
      simp [hx]

theorem sort_values_singleton (r : Row) : sort_values [r] = [r] :=
  (List.sorted_singleton r).insertionSort_eq

theorem drop_duplicates_pair [DecidableEq α] (a : α) : drop_duplicates [a, a] = [a] := by
  simp [drop_duplicates, dropDupsFrom]

theorem mergePipeline_single (r : Row) : mergePipeline [r] = [r] :=
  mergePipeline_eq_self (by simp) (List.sorted_singleton r)

theorem mergePipeline_pair_exact_dup (r : Row) : mergePipeline [r, r] = [r] := by
  unfold mergePipeline
  rw [drop_duplicates_pair]
  rw [if_neg ?hld]
  case hld =>
    rw [(hasLogicalDups_eq_false_iff [r]).mpr (by simp)]
    exact Bool.false_ne_true
  exact sort_values_singleton r

theorem mergePipeline_pair_same_key {r1 r2 : Row} (hk : r1.key = r2.key) (hne : r1 ≠ r2) :
    mergePipeline [r1, r2] = [⟨r1.key, r1.offence_count + r2.offence_count⟩] := by
  have hdd : drop_duplicates [r1, r2] = [r1, r2] :=
    drop_duplicates_eq_self (by simp [hne])
  unfold mergePipeline
  rw [hdd, if_pos ?hld]
  case hld =>
    unfold hasLogicalDups
    rw [List.any_eq_true]
    refine ⟨r1, by simp, ?_⟩
    rw [decide_eq_true_eq]
    rw [show ([r1, r2].countP fun r2 => decide (r2.key = r1.key)) = 2 from by
      simp [List.countP_cons, hk]]
  have hkeys : [r1, r2].map Row.key = [r1.key, r1.key] := by
    simp [hk]
  unfold groupby_sum
  rw [hkeys, drop_duplicates_pair]
  rw [show ([r1.key].insertionSort keyLE) = [r1.key] from rfl]
  rw [List.map_singleton]
  have hgs : groupSum [r1, r2] r1.key = r1.offence_count + r2.offence_count := by
    unfold groupSum
    simp [List.filter_cons, hk]
  rw [hgs]
  exact sort_values_singleton _

theorem merge_single_table (rows : List RawRow) :
    merge_csv_files [Source.table REQUIRED_COLUMNS rows] =
      Except.ok (mergePipeline (rows.map coerceRow)) := by
  have hv : validate_columns REQUIRED_COLUMNS = true := by decide
  have hps : processSources [Source.table REQUIRED_COLUMNS rows]
      = some [rows.map coerceRow] := by
    simp [processSources, hv]
  rw [merge_csv_files_eq_of_some hps]
  rw [if_neg (by simp)]
  simp

theorem merge_single_row (r : RawRow) :
    merge_csv_files [Source.table REQUIRED_COLUMNS [r]] = Except.ok [coerceRow r] := by
  rw [merge_single_table [r]]
  simp [mergePipeline_single]

theorem groupSum_eq_zero_of_not_mem {l : List Row} {k : Key} (h : k ∉ l.map Row.key) :
    groupSum l k = 0 := by
  unfold groupSum
  have hnil : l.filter (fun r => decide (r.key = k)) = [] := by
    rw [List.filter_eq_nil_iff]
    intro r hr
    simp only [decide_eq_true_eq]
    intro he
    exact h (he ▸ List.mem_map_of_mem Row.key hr)
  rw [hnil]
  rfl

theorem filter_eq_key_of_nodup {ks : List Key} (h : ks.Nodup) (k : Key) :
    ks.filter (fun x => decide (x = k)) = if k ∈ ks then [k] else [] := by
  induction ks with
  | nil => simp
  | cons a ks ih =>
    rw [List.nodup_cons] at h
    by_cases hak : a = k
    · subst hak
      have hrest : ks.filter (fun x => decide (x = a)) = [] := by
        rw [List.filter_eq_nil_iff]
        intro x hx
        simp only [decide_eq_true_eq]
        intro he
        exact h.1 (he ▸ hx)
      simp [List.filter_cons, hrest, List.mem_cons]
    · rw [List.filter_cons]
      have : (decide (a = k)) = false := by simp [hak]
      rw [this]
      simp only [Bool.false_eq_true, if_neg, ite_false]
      rw [ih h.2]
      have hmem : k ∈ a :: ks ↔ k ∈ ks := by
        rw [List.mem_cons]
        constructor
        · rintro (rfl | hk)
          · exact absurd rfl hak
          · exact hk
        · exact Or.inr
      by_cases hk : k ∈ ks
      · rw [if_pos hk, if_pos (hmem.mpr hk)]
      · rw [if_neg hk, if_neg (fun hc => hk (hmem.mp hc))]

theorem groupSum_groupby (l : List Row) (k : Key) :
    groupSum (groupby_sum l) k = groupSum l k := by
  have hnd : ((drop_duplicates (l.map Row.key)).insertionSort keyLE).Nodup :=
    ((List.perm_insertionSort keyLE _).nodup_iff).mpr (nodup_drop_duplicates _)
  rw [show groupSum (groupby_sum l) k
      = ((((drop_duplicates (l.map Row.key)).insertionSort keyLE).map
          (fun k => (⟨k, groupSum l k⟩ : Row))).filter
            (fun r => decide (r.key = k)) |>.map Row.offence_count).sum from rfl]
  rw [List.filter_map]
  rw [show ((fun r => decide (r.key = k)) ∘ fun k => (⟨k, groupSum l k⟩ : Row))
      = fun x => decide (x = k) from rfl]
  rw [filter_eq_key_of_nodup hnd k]
  by_cases hk : k ∈ (drop_duplicates (l.map Row.key)).insertionSort keyLE
  · rw [if_pos hk]
    simp
  · rw [if_neg hk]
    rw [List.mem_insertionSort, mem_drop_duplicates] at hk
    rw [show (([] : List Key).map (fun k => (⟨k, groupSum l k⟩ : Row))
        |>.map Row.offence_count).sum = 0 from rfl]
    exact (groupSum_eq_zero_of_not_mem hk).symm

theorem mergePipeline_groupSum (l : List Row) (k : Key) :
    groupSum (mergePipeline l) k = groupSum (drop_duplicates l) k := by
  unfold mergePipeline sort_values
  rw [groupSum_perm (List.perm_insertionSort dsLE _)]
  by_cases h : hasLogicalDups (drop_duplicates l)
  · rw [if_pos h, groupSum_groupby]
  · rw [if_neg h]

/-- C1 counterexample: with a single source holding the same record twice
(count 3 each), the merge succeeds with an output total of 3, while the
coerced total over all input rows that passed field validation is 6 —
exact-duplicate removal drops one of the two equal counts, so conservation
as claimed fails. -/
theorem conservation_exact_claim_false :
    merge_csv_files [exTable [exRawA "3", exRawA "3"]] = Except.ok [⟨exKeyA, 3⟩] ∧
      sumCounts [⟨exKeyA, 3⟩] ≠
        specValidatedInputSum [exTable [exRawA "3", exRawA "3"]] :=
  ⟨rfl, by decide⟩

/-- C1 (amended): for every run that succeeds, the sum of offence_count
over the output equals the coerced sum over the DISTINCT rows of the
working collection (the union of all validated sources after
exact-duplicate removal); counts are only merged beyond that, never
dropped. -/
theorem conservation_after_exact_dedup (sources : List Source) (out ws : List Row)
    (hok : merge_csv_files sources = Except.ok out)
    (hws : workingRows sources = some ws) :
    sumCounts out = sumCounts (drop_duplicates ws) := by
  obtain ⟨dfs, hdfs, _, rfl⟩ := (merge_ok_iff sources out).mp hok
  rw [workingRows, hdfs, Option.map_some'] at hws
  cases hws
  exact mergePipeline_sumCounts _

/-- C1 witness at a concrete input. -/
theorem conservation_after_exact_dedup_witness :
    sumCounts [(⟨exKeyA, 3⟩ : Row)] =
      sumCounts (drop_duplicates [(⟨exKeyA, 3⟩ : Row), ⟨exKeyA, 3⟩]) :=
  conservation_after_exact_dedup [exTable [exRawA "3", exRawA "3"]]
    [⟨exKeyA, 3⟩] [⟨exKeyA, 3⟩, ⟨exKeyA, 3⟩] rfl rfl

/-- C2: no two rows of a successful merge's output share the six-field key,
and offence_count plays no part in row identity — for every key the output
carries exactly the summed count of the deduplicated working collection's
rows with that key (colliding rows are additively merged). -/
theorem key_uniqueness_and_additive_merge (sources : List Source) (out ws : List Row)
    (hok : merge_csv_files sources = Except.ok out)
    (hws : workingRows sources = some ws) :
    ((out.map Row.key).Nodup) ∧
      ∀ k : Key, groupSum out k = groupSum (drop_duplicates ws) k := by
  obtain ⟨dfs, hdfs, _, rfl⟩ := (merge_ok_iff sources _).mp hok
  rw [workingRows, hdfs, Option.map_some'] at hws
  cases hws
  exact ⟨mergePipeline_keys_nodup _, fun k => mergePipeline_groupSum _ k⟩

/-- C2 witness at a concrete input. -/
theorem key_uniqueness_and_additive_merge_witness :
    (([(⟨exKeyA, 8⟩ : Row)].map Row.key).Nodup) ∧
      ∀ k : Key, groupSum [(⟨exKeyA, 8⟩ : Row)] k =
        groupSum (drop_duplicates [(⟨exKeyA, 3⟩ : Row), ⟨exKeyA, 5⟩]) k :=
  key_uniqueness_and_additive_merge [exTable [exRawA "3", exRawA "5"]]
    [⟨exKeyA, 8⟩] [⟨exKeyA, 3⟩, ⟨exKeyA, 5⟩] rfl rfl

/-- C3: a row repeated verbatim across two input sources appears in the
output exactly once with its original count (not doubled); two rows equal
on the six-field key but with different counts are merged into a single
row carrying the sum of the two. -/
theorem exact_dup_once_logical_dup_sums (a r1 r2 : RawRow)
    (hk : r1.toKey = r2.toKey)
    (hc : (to_numeric r1.offence_count).getD 0 ≠ (to_numeric r2.offence_count).getD 0) :
    merge_csv_files [Source.table REQUIRED_COLUMNS [a], Source.table REQUIRED_COLUMNS [a]]
        = Except.ok [coerceRow a] ∧
      merge_csv_files [Source.table REQUIRED_COLUMNS [r1], Source.table REQUIRED_COLUMNS [r2]]
        = Except.ok [⟨r1.toKey,
            (to_numeric r1.offence_count).getD 0 + (to_numeric r2.offence_count).getD 0⟩] := by
  have hv : validate_columns REQUIRED_COLUMNS = true := by decide
  constructor
  · have hps : processSources
        [Source.table REQUIRED_COLUMNS [a], Source.table REQUIRED_COLUMNS [a]]
        = some [[coerceRow a], [coerceRow a]] := by
      simp [processSources, hv]
    rw [merge_csv_files_eq_of_some hps]
    rw [if_neg (by simp)]
    rw [show ([[coerceRow a], [coerceRow a]] : List (List Row)).flatten
        = [coerceRow a, coerceRow a] from by simp]
    rw [mergePipeline_pair_exact_dup]
  · have hps : processSources
        [Source.table REQUIRED_COLUMNS [r1], Source.table REQUIRED_COLUMNS [r2]]
        = some [[coerceRow r1], [coerceRow r2]] := by
      simp [processSources, hv]
    rw [merge_csv_files_eq_of_some hps]
    rw [if_neg (by simp)]
    rw [show ([[coerceRow r1], [coerceRow r2]] : List (List Row)).flatten
        = [coerceRow r1, coerceRow r2] from by simp]
    have hkk : (coerceRow r1).key = (coerceRow r2).key := hk
    have hne2 : coerceRow r1 ≠ coerceRow r2 := by
      intro he
      exact hc (congrArg Row.offence_count he)
    rw [mergePipeline_pair_same_key hkk hne2]
    rfl

/-- C3 witness at a concrete input. -/
theorem exact_dup_once_logical_dup_sums_witness :
    merge_csv_files [Source.table REQUIRED_COLUMNS [exRawA "3"],
        Source.table REQUIRED_COLUMNS [exRawA "3"]]
        = Except.ok [coerceRow (exRawA "3")] ∧
      merge_csv_files [Source.table REQUIRED_COLUMNS [exRawA "3"],
        Source.table REQUIRED_COLUMNS [exRawA "5"]]
        = Except.ok [⟨(exRawA "3").toKey,
            (to_numeric (exRawA "3").offence_count).getD 0 +
              (to_numeric (exRawA "5").offence_count).getD 0⟩] :=
  exact_dup_once_logical_dup_sums (exRawA "3") (exRawA "3") (exRawA "5") rfl (by decide)

/-- C4 counterexample: a source consisting of just a header row parses to a
zero-row table; contrary to the claim the merge does not fail with a data
error — it succeeds and writes an empty Canonical Table. -/
theorem header_only_source_not_data_error :
    merge_csv_files [Source.table REQUIRED_COLUMNS []] = Except.ok [] := rfl

/-- C4 (amended): the no-data failure occurs exactly when every supplied
source is a completely empty file (pandas EmptyDataError), including the
vacuous no-sources case; a header-only source contributes a zero-row table
but still counts as read, so the merger then succeeds, emitting an empty
table rather than failing. -/
theorem noData_iff_all_sources_completely_empty (sources : List Source) :
    merge_csv_files sources = Except.error MergeError.noData ↔
      ∀ s ∈ sources, s = Source.empty := by
  cases hps : processSources sources with
  | none =>
    rw [merge_csv_files_eq_of_none hps]
    constructor
    · intro he
      simp at he
    · intro hall
      have h0 : processSources sources = some [] :=
        (processSources_eq_some_nil_iff sources).mpr hall
      rw [hps] at h0
      cases h0
  | some dfs =>
    rw [merge_csv_files_eq_of_some hps]
    by_cases hd : dfs = []
    · subst hd
      rw [show (([] : List (List Row)).isEmpty) = true from rfl, if_pos rfl]
      constructor
      · intro _
        exact (processSources_eq_some_nil_iff sources).mp hps
      · intro _
        rfl
    · rw [if_neg (by simpa [List.isEmpty_iff] using hd)]
      constructor
      · intro he
        simp at he
      · intro hall
        have h0 : processSources sources = some [] :=
          (processSources_eq_some_nil_iff sources).mpr hall
        rw [hps] at h0
        injection h0 with h0
        exact absurd h0 hd

/-- C5 counterexample: with a first source that has rows and all required
columns and a second source whose header lacks required columns, the whole
run aborts with the column error — the bad source is not skipped and the
merge does not succeed on the strength of the good source. -/
theorem missing_column_aborts_whole_run :
    merge_csv_files [exTable [exRawB "2"], exBadSource]
      = Except.error MergeError.columnMissing := rfl

/-- C5 (amended): a source missing any required column is fatal for the
whole merge — whenever any supplied source lacks a required column, the run
ends with the column error and no table is produced. Only a completely
empty source is skipped, with processing continuing on the rest. -/
theorem missing_column_fatal_empty_skipped (sources rest : List Source)
    (h : ∃ s ∈ sources, missingRequired s = true) :
    merge_csv_files sources = Except.error MergeError.columnMissing ∧
      merge_csv_files (Source.empty :: rest) = merge_csv_files rest :=
  ⟨merge_csv_files_eq_of_none ((processSources_eq_none_iff sources).mpr h), rfl⟩

/-- C5 witness at a concrete input. -/
theorem missing_column_fatal_empty_skipped_witness :
    merge_csv_files [exBadSource] = Except.error MergeError.columnMissing ∧
      merge_csv_files (Source.empty :: [exTable [exRawA "1"]])
        = merge_csv_files [exTable [exRawA "1"]] :=
  missing_column_fatal_empty_skipped [exBadSource] [exTable [exRawA "1"]]
    ⟨exBadSource, List.mem_cons_self _ _, by decide⟩

/-- C6 counterexample: the count cell "-5" parses as a negative number, is
not coerced to zero, and survives into the output — so not every count in
the working collection is a non-negative integer. -/
theorem negative_count_not_coerced_to_zero :
    merge_csv_files [exTable [exRawA "-5"]] = Except.ok [⟨exKeyA, -5⟩] ∧
      ¬ (0 : Int) ≤ -5 :=
  ⟨rfl, by decide⟩

/-- C6 (amended): a count cell that fails to parse as an integer is coerced
to zero and the row is kept, not rejected; a cell that parses keeps its
parsed value, which may be negative, so the resulting counts are integers
but not necessarily non-negative. -/
theorem unparsable_count_coerced_zero_row_kept (r : RawRow)
    (h : to_numeric r.offence_count = none) :
    merge_csv_files [Source.table REQUIRED_COLUMNS [r]] = Except.ok [⟨r.toKey, 0⟩] := by
  have hcr : coerceRow r = ⟨r.toKey, 0⟩ := by
    unfold coerceRow
    rw [h]
    rfl
  rw [merge_single_row r, hcr]

/-- C6 witness at a concrete input. -/
theorem unparsable_count_coerced_zero_row_kept_witness :
    merge_csv_files [Source.table REQUIRED_COLUMNS [exRawA "x"]]
      = Except.ok [⟨(exRawA "x").toKey, 0⟩] :=
  unparsable_count_coerced_zero_row_kept (exRawA "x") rfl

/-- C7: merging the same sources in a permuted file order yields the same
output table up to the order of rows tying on (reported_date, suburb):
the two outputs are permutations of each other and both are sorted by
that sort key. -/
theorem order_independence (sources₁ sources₂ : List Source) (out₁ out₂ : List Row)
    (hperm : List.Perm sources₁ sources₂)
    (h1 : merge_csv_files sources₁ = Except.ok out₁)
    (h2 : merge_csv_files sources₂ = Except.ok out₂) :
    List.Perm out₁ out₂ ∧ List.Sorted dsLE out₁ ∧ List.Sorted dsLE out₂ := by
  obtain ⟨dfs₁, hp1, _, rfl⟩ := (merge_ok_iff _ _).mp h1
  obtain ⟨dfs₂, hp2, _, rfl⟩ := (merge_ok_iff _ _).mp h2
  refine ⟨?_, mergePipeline_sorted _, mergePipeline_sorted _⟩
  have hnb1 : ∀ s ∈ sources₁, missingRequired s = false := by
    intro s hs
    by_contra hbad
    rw [Bool.not_eq_false] at hbad
    have hnone : processSources sources₁ = none :=
      (processSources_eq_none_iff _).mpr ⟨s, hs, hbad⟩
    rw [hp1] at hnone
    cases hnone
  have hnb2 : ∀ s ∈ sources₂, missingRequired s = false := fun s hs =>
    hnb1 s (hperm.mem_iff.mpr hs)
  have he1 := processSources_eq_filterMap hnb1
  have he2 := processSources_eq_filterMap hnb2
  rw [hp1] at he1
  rw [hp2] at he2
  cases he1
  cases he2
  apply mergePipeline_perm_congr
  intro a
  exact ((hperm.filterMap fileRows).flatten).mem_iff

/-- C7 witness at a concrete input. -/
theorem order_independence_witness :
    List.Perm [(⟨exKeyA, 3⟩ : Row), ⟨exKeyB, 2⟩] [⟨exKeyA, 3⟩, ⟨exKeyB, 2⟩] ∧
      List.Sorted dsLE [(⟨exKeyA, 3⟩ : Row), ⟨exKeyB, 2⟩] ∧
      List.Sorted dsLE [(⟨exKeyA, 3⟩ : Row), ⟨exKeyB, 2⟩] :=
  order_independence [exTable [exRawA "3"], exTable [exRawB "2"]]
    [exTable [exRawB "2"], exTable [exRawA "3"]]
    [⟨exKeyA, 3⟩, ⟨exKeyB, 2⟩] [⟨exKeyA, 3⟩, ⟨exKeyB, 2⟩]
    (List.Perm.swap _ _ _) rfl rfl

/-- C8: feeding a successful merge's output back to the merger as its only
source (with the counts re-serialized to text) returns the very same
table: no further exact or logical duplicates are found and the order is
unchanged. -/
theorem merge_idempotent (sources : List Source) (out : List Row)
    (h : merge_csv_files sources = Except.ok out) :
    merge_csv_files [Source.table REQUIRED_COLUMNS (out.map rawOfRow)]
      = Except.ok out := by
  obtain ⟨dfs, _, _, rfl⟩ := (merge_ok_iff _ _).mp h
  have hnd := mergePipeline_keys_nodup dfs.flatten
  have hsorted := mergePipeline_sorted dfs.flatten
  rw [merge_single_table]
  rw [List.map_map]
  rw [show (coerceRow ∘ rawOfRow) = id from funext coerceRow_rawOfRow]
  rw [List.map_id]
  rw [mergePipeline_eq_self hnd hsorted]

/-- C8 witness at a concrete input. -/
theorem merge_idempotent_witness :
    merge_csv_files [Source.table REQUIRED_COLUMNS
        ([(⟨exKeyA, 3⟩ : Row)].map rawOfRow)] = Except.ok [⟨exKeyA, 3⟩] :=
  merge_idempotent [exTable [exRawA "3"]] [⟨exKeyA, 3⟩] rfl

/-- C9: every successful merge's output is sorted ascending by
(reported_date, suburb), and the sort the merger applies is stable: for
any table and any value of the sort key, the rows carrying that key appear
in the sorted result in exactly their pre-sort order. -/
theorem output_sorted_stable (sources : List Source) (out : List Row)
    (h : merge_csv_files sources = Except.ok out) :
    List.Sorted dsLE out ∧
      ∀ (l : List Row) (k : List (List Char)),
        (sort_values l).filter (fun r => decide (dsKey r = k)) =
          l.filter (fun r => decide (dsKey r = k)) := by
  obtain ⟨dfs, _, _, rfl⟩ := (merge_ok_iff _ _).mp h
  exact ⟨mergePipeline_sorted _, sort_values_stable⟩

/-- C9 witness at a concrete input. -/
theorem output_sorted_stable_witness :
    List.Sorted dsLE [(⟨exKeyA, 3⟩ : Row), ⟨exKeyB, 2⟩] ∧
      ∀ (l : List Row) (k : List (List Char)),
        (sort_values l).filter (fun r => decide (dsKey r = k)) =
          l.filter (fun r => decide (dsKey r = k)) :=
  output_sorted_stable [exTable [exRawA "3"], exTable [exRawB "2"]]
    [⟨exKeyA, 3⟩, ⟨exKeyB, 2⟩] rfl

/-- C10: count coercion happens before exact-duplicate removal, so two
rows that differ only in their unparsable count text both coerce to count
0, become identical, and collapse to a single row with count 0 — neither
kept as two rows nor summed to anything else. -/
theorem coercion_before_exact_dedup (k : Key) (c1 c2 : String)
    (h1 : to_numeric c1 = none) (h2 : to_numeric c2 = none) :
    merge_csv_files [Source.table REQUIRED_COLUMNS [⟨k, c1⟩, ⟨k, c2⟩]] =
      Except.ok [⟨k, 0⟩] := by
  rw [merge_single_table]
  rw [show ([(⟨k, c1⟩ : RawRow), ⟨k, c2⟩].map coerceRow) = [⟨k, 0⟩, ⟨k, 0⟩] from by
    simp [coerceRow, h1, h2]]
  rw [mergePipeline_pair_exact_dup]

/-- C10 witness at a concrete input. -/
theorem coercion_before_exact_dedup_witness :
    merge_csv_files [Source.table REQUIRED_COLUMNS
        [⟨exKeyA, "x"⟩, ⟨exKeyA, "abc"⟩]] = Except.ok [⟨exKeyA, 0⟩] :=
  coercion_before_exact_dedup exKeyA "x" "abc" rfl rfl

end CrimeMerge
